import Mathlib

/-!
Shallow embedding of the RIFF/WAVE streaming decoder (package `wav`,
file `decoder.go` of the repository) and proofs about its behaviour.

Byte streams are modelled as `List Nat` (each element a byte value),
machine integers as `Nat`/`Int` with explicit reduction modulo `2^32`
(`uint32`), `2^64` (`uint64`) and two's-complement reinterpretation
(`int32`, `int64`).  Go's `error` values are modelled by `AudioErr`;
a `nil` error is `Option.none`.  A Go `panic` in `Read` is modelled by
a dedicated outcome constructor.
-/

/-- Errors observable from the decoder: `audio.EOS`, `audio.ErrInvalidData`,
`wav.ErrUnsupported`, `io.EOF` and `io.ErrUnexpectedEOF`. -/
inductive AudioErr where
  | eos
  | invalidData
  | unsupported
  | eof
  | unexpectedEOF
deriving DecidableEq, Repr

/-- A decoded sample as stored into the destination buffer by the
per-format readers (float samples are kept as their raw IEEE-754 bit
patterns, exactly the value handed to `math.Float32frombits` /
`math.Float64frombits` in the source). -/
inductive Sample where
  | u8 (v : Nat)
  | i16 (v : Int)
  | i32 (v : Int)
  | f32bits (v : Nat)
  | f64bits (v : Nat)
  | mulaw (v : Nat)
  | alaw (v : Nat)
deriving DecidableEq, Repr

/-- Two's-complement reinterpretation of a `Nat` (already reduced below
`2 ^ bits`) as a signed integer of width `bits`. -/
def toSigned (v : Nat) (bits : Nat) : Int :=
  if v < 2 ^ (bits - 1) then (v : Int) else (v : Int) - 2 ^ bits

/-- Wrap an integer into the `int32` range, two's-complement style. -/
def int32wrap (x : Int) : Int :=
  (x + 2 ^ 31) % 2 ^ 32 - 2 ^ 31

/-- Reinterpret a `uint64` value (a `Nat` below `2 ^ 64`) as `int64`. -/
def toInt64 (m : Nat) : Int :=
  if m < 2 ^ 63 then (m : Int) else (m : Int) - 2 ^ 64

/-- The state of `wav.decoder`: the fields `format`, `bitsPerSample`
(`uint16`), `chunkSize`, `currentCount` (`uint32`), `dataChunkBegin`
(`int32`), the parsed `config` (`nil` until the `fmt ` chunk is seen,
then `(Channels, SampleRate)`), and the remaining bytes of the
underlying reader `rd`. -/
structure DecoderState where
  format : Nat
  bitsPerSample : Nat
  chunkSize : Nat
  currentCount : Nat
  dataChunkBegin : Int
  config : Option (Nat × Nat)
  stream : List Nat
deriving DecidableEq, Repr

/-- `decoder.advance`: advances the byte counter by `sz`.  If the chunk
size is known (`> 0`) the `uint32` counter is incremented (wrapping) and
`audio.EOS` is returned when it exceeds the chunk size; otherwise the
`int32` data chunk marker is extended by `sz`. -/
def advance (d : DecoderState) (sz : Nat) : Option AudioErr × DecoderState :=
  if 0 < d.chunkSize then
    let cc := (d.currentCount + sz) % 2 ^ 32
    let d1 := { d with currentCount := cc }
    if d.chunkSize < cc then (some .eos, d1) else (none, d1)
  else
    (none, { d with dataChunkBegin := int32wrap (d.dataChunkBegin + sz) })

/-- `io.ReadFull` semantics on the modelled stream: `n` bytes are taken
if available; an empty stream yields `io.EOF`, a short stream yields
`io.ErrUnexpectedEOF` (the available bytes having been drained). -/
def readN (n : Nat) (s : List Nat) : Except AudioErr (List Nat × List Nat) :=
  if n ≤ s.length then .ok (s.take n, s.drop n)
  else if s.length = 0 then .error .eof
  else .error .unexpectedEOF

/-- Result of one per-format reader call (`read` count, returned error,
samples stored into the destination buffer, final decoder state). -/
structure RS where
  read : Nat
  err : Option AudioErr
  samples : List Sample
  state : DecoderState
deriving DecidableEq, Repr

/-- The common loop of the per-format readers (`readUint8`, `readInt16`,
`readInt24`, `readInt32`, `readFloat32`, `readFloat64`, `readMuLaw`,
`readALaw`): for each sample slot, first `advance` by the sample width,
then `smallRead` that many bytes and decode them.  On any error the
count of samples fully stored so far is returned with the error. -/
def readSamples (w : Nat) (dec : List Nat → Sample) :
    Nat → DecoderState → RS
  | 0, d => ⟨0, none, [], d⟩
  | n + 1, d =>
    match advance d w with
    | (some e, d1) => ⟨0, some e, [], d1⟩
    | (none, d1) =>
      match readN w d1.stream with
      | .error e => ⟨0, some e, [], { d1 with stream := [] }⟩
      | .ok (bs, rest) =>
        let r := readSamples w dec n { d1 with stream := rest }
        ⟨r.read + 1, r.err, dec bs :: r.samples, r.state⟩

/-- Little-endian recomposition of a byte list. -/
def le : List Nat → Nat
  | [] => 0
  | b :: bs => b + 256 * le bs

/-- The 24-bit PCM decode of `readInt24`:
`ss = int32(b0) | int32(b1)<<8 | int32(b2)<<16`, then if bit 23 is set
(`ss & 0x800000 > 0`) the high byte is forced on
(`ss |= ^0xffffff`, bit pattern `0xFF000000`) and the 32-bit pattern is
reinterpreted as a signed integer. -/
def int24of (bs : List Nat) : Int :=
  let ss := bs.getD 0 0 ||| (bs.getD 1 0 <<< 8) ||| (bs.getD 2 0 <<< 16)
  if 0 < ss &&& 8388608 then toSigned (ss ||| 4278190080) 32 else toSigned ss 32

/-- `readUint8` sample decode: the single raw byte. -/
def decU8 (bs : List Nat) : Sample := .u8 (bs.getD 0 0)

/-- `readInt16` sample decode: `int16(binary.LittleEndian.Uint16(buf))`. -/
def decI16 (bs : List Nat) : Sample := .i16 (toSigned (le bs) 16)

/-- `readInt24` sample decode. -/
def decI24 (bs : List Nat) : Sample := .i32 (int24of bs)

/-- `readInt32` sample decode: `int32(binary.LittleEndian.Uint32(buf))`. -/
def decI32 (bs : List Nat) : Sample := .i32 (toSigned (le bs) 32)

/-- `readFloat32` sample decode: the raw little-endian 32-bit pattern. -/
def decF32 (bs : List Nat) : Sample := .f32bits (le bs)

/-- `readFloat64` sample decode: the raw little-endian 64-bit pattern. -/
def decF64 (bs : List Nat) : Sample := .f64bits (le bs)

/-- `readMuLaw` sample decode: the single raw byte. -/
def decMu (bs : List Nat) : Sample := .mulaw (bs.getD 0 0)

/-- `readALaw` sample decode: the single raw byte. -/
def decA (bs : List Nat) : Sample := .alaw (bs.getD 0 0)

/-- Outcome of `decoder.Read`: either a normal result or a `panic` with
the given message. -/
inductive ReadOutcome where
  | res (r : RS)
  | panicked (msg : String)
deriving DecidableEq, Repr

/-- `decoder.Read`: a zero-length buffer is a no-op; otherwise dispatch
on `(format, bitsPerSample)` to the per-format reader, panicking on any
unrecognized combination exactly as the source does. -/
def Read (d : DecoderState) (len : Nat) : ReadOutcome :=
  if len = 0 then .res ⟨0, none, [], d⟩
  else
    match d.format, d.bitsPerSample with
    | 1, 8 => .res (readSamples 1 decU8 len d)
    | 1, 16 => .res (readSamples 2 decI16 len d)
    | 1, 24 => .res (readSamples 3 decI24 len d)
    | 1, 32 => .res (readSamples 4 decI32 len d)
    | 1, _ => .panicked "invalid bits per sample"
    | 3, 32 => .res (readSamples 4 decF32 len d)
    | 3, 64 => .res (readSamples 8 decF64 len d)
    | 3, _ => .panicked "invalid bits per sample"
    | 7, _ => .res (readSamples 1 decMu len d)
    | 6, _ => .res (readSamples 1 decA len d)
    | _, _ => .panicked "invalid format"

/-- The byte width of one sample for each `(format, bitsPerSample)`
combination that `Read` dispatches to a reader; `none` on the panic
branches. -/
def sampleWidth (d : DecoderState) : Option Nat :=
  match d.format, d.bitsPerSample with
  | 1, 8 => some 1
  | 1, 16 => some 2
  | 1, 24 => some 3
  | 1, 32 => some 4
  | 1, _ => none
  | 3, 32 => some 4
  | 3, 64 => some 8
  | 3, _ => none
  | 7, _ => some 1
  | 6, _ => some 1
  | _, _ => none

/-- `decoder.Seek` with a seekable source repositions it to
`int64(d.dataChunkBegin) + int64(sample * (uint64(d.bitsPerSample)/8))`
(64-bit wrapping arithmetic); with a non-seekable source it does nothing
and succeeds.  The result is the absolute target offset, or `none` for
the no-op. -/
def Seek (d : DecoderState) (sample : Nat) (seekable : Bool) : Option Int :=
  if seekable then
    some ((d.dataChunkBegin + toInt64 (sample * (d.bitsPerSample / 8) % 2 ^ 64) + 2 ^ 63)
        % 2 ^ 64 - 2 ^ 63)
  else none

/-- The bytes of the chunk identifier `"RIFF"`. -/
def RIFFb : List Nat := [82, 73, 70, 70]

/-- The bytes of the literal `"WAVE"`. -/
def WAVEb : List Nat := [87, 65, 86, 69]

/-- The bytes of the chunk identifier `"fmt "`. -/
def FMTb : List Nat := [102, 109, 116, 32]

/-- The bytes of the chunk identifier `"fact"`. -/
def FACTb : List Nat := [102, 97, 99, 116]

/-- The bytes of the chunk identifier `"data"`. -/
def DATAb : List Nat := [100, 97, 116, 97]

/-- `decoder.bRead` during construction: `advance` by `n` (which never
fails while `chunkSize = 0`), then read `n` bytes. -/
def consRead (d : DecoderState) (n : Nat) :
    Except AudioErr (List Nat × DecoderState) :=
  match advance d n with
  | (some e, _) => .error e
  | (none, d1) =>
    match readN n d1.stream with
    | .error e => .error e
    | .ok (bs, rest) => .ok (bs, { d1 with stream := rest })

/-- `decoder.nextChunk`: the 4-byte identifier and the little-endian
4-byte chunk length. -/
def nextChunk (d : DecoderState) :
    Except AudioErr (List Nat × Nat × DecoderState) :=
  match consRead d 4 with
  | .error e => .error e
  | .ok (id4, d1) =>
    match consRead d1 4 with
    | .error e => .error e
    | .ok (l4, d2) => .ok (id4, le l4, d2)

/-- The format-tag switch of `newDecoder`: PCM (tag 1) with 8/16/24/32
bits, IEEE float (tag 3) with 32/64 bits, A-law (tag 6) with 8 bits,
mu-law (tag 7) with 8 bits; everything else (the EXTENSIBLE case being
commented out in the source) falls to the default. -/
def checkFmt (ft bps : Nat) : Bool :=
  (ft == 1 && (bps == 8 || bps == 16 || bps == 24 || bps == 32)) ||
  (ft == 3 && (bps == 32 || bps == 64)) ||
  (ft == 6 && bps == 8) ||
  (ft == 7 && bps == 8)

/-- The chunk-consuming loop of `newDecoder`, fuelled (every iteration
that recurses consumes at least 8 bytes of the stream, so the fuel
`input.length + 1` supplied by `newDecoder` never runs out).

The 18- and 40-byte `fmt ` extension records (`fmtChunk18`,
`fmtChunk40`) and the `fact` record (`factChunk`) are struct types whose
declarations are not part of the given sources; their byte sizes (2, 24
and 4) are modelled from the spec: the 18-byte `fmt ` chunk adds a
cb-size field and the 40-byte one adds valid-bits, channel-mask and a
sub-format GUID, while the `fact` chunk is a fixed record holding a
sample count. -/
def loopBody (rec : DecoderState → Except AudioErr DecoderState)
    (d : DecoderState) : Except AudioErr DecoderState :=
  match nextChunk d with
    | .error e => .error e
    | .ok (ident, length, d1) =>
      if ident = RIFFb then
        match consRead d1 4 with
        | .ok (fmt4, d2) =>
          if fmt4 = WAVEb then rec d2 else .error .invalidData
        | .error _ => .error .invalidData
      else if ident = FMTb then
        match consRead d1 16 with
        | .error e => .error e
        | .ok (c16, d2) =>
          let ft := le (c16.take 2)
          let channels := le ((c16.drop 2).take 2)
          let samplesPerSec := le ((c16.drop 4).take 4)
          let bps := le (c16.drop 14)
          let d3 := { d2 with bitsPerSample := bps }
          let ext : Except AudioErr DecoderState :=
            if length = 18 then
              match consRead d3 2 with
              | .error e => .error e
              | .ok (_, d4) => .ok d4
            else if length = 40 then
              match consRead d3 24 with
              | .error e => .error e
              | .ok (_, d4) => .ok d4
            else .ok d3
          match ext with
          | .error e => .error e
          | .ok d4 =>
            if checkFmt ft bps then
              rec { d4 with format := ft, config := some (channels, samplesPerSec) }
            else .error .unsupported
      else if ident = FACTb then
        match consRead d1 4 with
        | .error e => .error e
        | .ok (_, d2) => rec d2
      else if ident = DATAb then .ok { d1 with chunkSize := length }
      else rec d1

/-- The fuelled chunk loop: one `loopBody` step per unit of fuel. -/
def newDecoderLoop : Nat → DecoderState → Except AudioErr DecoderState
  | 0, _ => .error .eof
  | fuel + 1, d => loopBody (newDecoderLoop fuel) d

/-- The zero-initialized decoder handed to the chunk loop. -/
def initState (input : List Nat) : DecoderState :=
  { format := 0, bitsPerSample := 0, chunkSize := 0, currentCount := 0,
    dataChunkBegin := 0, config := none, stream := input }

/-- `wav.newDecoder` on a byte stream. -/
def newDecoder (input : List Nat) : Except AudioErr DecoderState :=
  newDecoderLoop (input.length + 1) (initState input)

/-- Samples read and error of a sequence of `Read` calls with the given
buffer lengths, stopping (as the round-trip tests of the repository do)
at the first call that reports an error; the total sample count and the
stopping error are returned.  A `panic` outcome stops with no error. -/
def runUntilStop : DecoderState → List Nat → Nat × Option AudioErr
  | _, [] => (0, none)
  | d, n :: rest =>
    match Read d n with
    | .res r =>
      match r.err with
      | none =>
        let t := runUntilStop r.state rest
        (r.read + t.1, t.2)
      | some e => (r.read, some e)
    | .panicked _ => (0, none)

/-- The samples produced by decoding `n` consecutive `w`-byte groups of
a stream with the decode function `dec`. -/
def decodeSeg (w : Nat) (dec : List Nat → Sample) : Nat → List Nat → List Sample
  | 0, _ => []
  | n + 1, s => dec (s.take w) :: decodeSeg w dec n (s.drop w)

/-- A well-formed container, except that a `"LIST"` chunk with a 4-byte
payload precedes the `"fmt "` chunk. -/
def c3streamBad : List Nat :=
  RIFFb ++ [0, 0, 0, 0] ++ WAVEb ++
  [76, 73, 83, 84] ++ [4, 0, 0, 0] ++ [9, 9, 9, 9] ++
  FMTb ++ [16, 0, 0, 0] ++ [1, 0, 1, 0, 64, 31, 0, 0, 0, 0, 0, 0, 0, 0, 16, 0] ++
  DATAb ++ [2, 0, 0, 0] ++ [1, 0]

/-- The same container as `c3streamBad` with the `"LIST"` chunk removed. -/
def c3streamGood : List Nat :=
  RIFFb ++ [0, 0, 0, 0] ++ WAVEb ++
  FMTb ++ [16, 0, 0, 0] ++ [1, 0, 1, 0, 64, 31, 0, 0, 0, 0, 0, 0, 0, 0, 16, 0] ++
  DATAb ++ [2, 0, 0, 0] ++ [1, 0]

/-- A container whose `data` chunk is reached with no `fmt ` chunk ever
appearing: `"RIFF" len "WAVE" "data" len`. -/
def c4stream : List Nat :=
  RIFFb ++ [0, 0, 0, 0] ++ WAVEb ++ DATAb ++ [4, 0, 0, 0] ++ [5, 5, 5, 5]

/-- A stream whose first 4 bytes are `"data"`, not `"RIFF"`. -/
def c5stream : List Nat := DATAb ++ [0, 0, 0, 0]

/-- A `fmt `-less container with a 2-byte `data` payload. -/
def c7stream : List Nat :=
  RIFFb ++ [0, 0, 0, 0] ++ WAVEb ++ DATAb ++ [2, 0, 0, 0] ++ [7, 7]

/-- The decoder state `newDecoder` returns for `c7stream`. -/
def c7dec : DecoderState :=
  { format := 0, bitsPerSample := 0, chunkSize := 2, currentCount := 0,
    dataChunkBegin := 20, config := none, stream := [7, 7] }

/-- A 32-bit PCM decoder state positioned at the start of its data. -/
def c8dec : DecoderState :=
  { format := 1, bitsPerSample := 32, chunkSize := 0, currentCount := 0,
    dataChunkBegin := 44, config := none, stream := [] }

/-- An 8-bit PCM decoder state whose `uint32` byte counter sits at
`2 ^ 32 - 1`, past its 6-byte chunk — a state reachable by repeated
post-end-of-stream `Read` calls. -/
def c10dec : DecoderState :=
  { format := 1, bitsPerSample := 8, chunkSize := 6, currentCount := 4294967295,
    dataChunkBegin := 0, config := none, stream := [9] }

/-- The container of `mkFmtStream` with the format tag and bit depth as
parameters (channel count 2, sample rate 44100, a 16-byte `fmt ` chunk
and an empty-payload `data` chunk). -/
def mkFmtStream (ft bps : Nat) : List Nat :=
  RIFFb ++ [0, 0, 0, 0] ++ WAVEb ++
  FMTb ++ [16, 0, 0, 0] ++
  ([ft % 256, ft / 256] ++ [2, 0] ++ [68, 172, 0, 0] ++ [0, 0, 0, 0] ++ [0, 0] ++
   [bps % 256, bps / 256]) ++
  DATAb ++ [4, 0, 0, 0]

/-- The decoder `newDecoder` produces for `mkFmtStream ft bps` when the
format combination is accepted. -/
def mkFmtDecoder (ft bps : Nat) : DecoderState :=
  { format := ft, bitsPerSample := bps, chunkSize := 4, currentCount := 0,
    dataChunkBegin := 44, config := some (2, 44100), stream := [] }

/-- An IEEE-float64 decoder at the start of a `data` chunk declaring
exactly `536870911` 8-byte samples: `chunkSize = 536870911 * 8 =
2 ^ 32 - 8`, one sample width below the `uint32` maximum.  The source
holds the declared payload plus 8 trailing bytes (bytes of the file
following the data chunk). -/
def c1BoundaryDec : DecoderState :=
  { format := 3, bitsPerSample := 64, chunkSize := 536870911 * 8,
    currentCount := 0, dataChunkBegin := 0, config := none,
    stream := List.replicate (536870911 * 8) 0 ++ List.replicate 8 0 }

/-- The state of `c1BoundaryDec` after its declared `536870911` samples
have been read: the byte counter equals the chunk size exactly. -/
def c1AfterK : DecoderState :=
  { format := 3, bitsPerSample := 64, chunkSize := 536870911 * 8,
    currentCount := 536870911 * 8, dataChunkBegin := 0, config := none,
    stream := List.replicate 8 0 }

/-- Claim C9: for every decoder state, `Read` with a zero-length buffer
returns `(0, ok)`, reads nothing from the source and leaves the decoder
state (in particular `currentCount` and `dataChunkBegin`) unchanged. -/
theorem C9_read_empty_buffer (d : DecoderState) :
    Read d 0 = .res ⟨0, none, [], d⟩ := rfl

/-- Claim C4 (failing input): on a container whose `data` chunk is
reached with no `fmt ` chunk before it, `newDecoder` does not fail — it
returns a decoder (with format tag 0) instead of an error. -/
theorem C4_no_fmt_construction_succeeds :
    newDecoder c4stream =
      .ok { format := 0, bitsPerSample := 0, chunkSize := 4, currentCount := 0,
            dataChunkBegin := 20, config := none, stream := [5, 5, 5, 5] } := rfl

/-- Claim C7 (failing input): a decoder successfully returned by
`newDecoder` (for a container whose `data` chunk precedes any `fmt `
chunk) reaches the `"invalid format"` panic branch on its first `Read`
with a non-empty buffer. -/
theorem C7_panic_reachable :
    newDecoder c7stream = .ok c7dec ∧
    Read c7dec 1 = .panicked "invalid format" := ⟨rfl, rfl⟩

/-- Claim C3 (failing input): the parser does not account for the
declared payload length of an unrecognized chunk.  The container
`c3streamGood` is parsed successfully, but inserting a `"LIST"` chunk
with a 4-byte payload in front of its `fmt ` chunk (`c3streamBad`) makes
the parser read the payload bytes as a chunk header, and construction
aborts with an I/O error instead of parsing the aligned `fmt ` and
`data` chunks. -/
theorem C3_unknown_chunk_not_skipped :
    newDecoder c3streamGood =
      .ok { format := 1, bitsPerSample := 16, chunkSize := 2, currentCount := 0,
            dataChunkBegin := 44, config := some (1, 8000), stream := [1, 0] } ∧
    newDecoder c3streamBad = .error .unexpectedEOF := ⟨rfl, rfl⟩

/-- Claim C5 (counterexample): a stream whose first 4 bytes are
`"data"`, not `"RIFF"`, does not make `newDecoder` fail with
`InvalidData` — construction succeeds. -/
theorem C5_counterexample :
    c5stream.take 4 ≠ RIFFb ∧
    newDecoder c5stream =
      .ok { format := 0, bitsPerSample := 0, chunkSize := 0, currentCount := 0,
            dataChunkBegin := 8, config := none, stream := [] } := ⟨by decide, rfl⟩

/-- Claim C8 (counterexample): `Seek` computes the byte offset in
wrapping 64-bit arithmetic, so for the sample index `2 ^ 62` on a 32-bit
decoder the product `2 ^ 62 * 4` wraps to 0 and the source is
repositioned to `dataChunkBegin`, not to
`dataChunkBegin + sampleIndex * (bitsPerSample / 8)`. -/
theorem C8_counterexample :
    Seek c8dec (2 ^ 62) true = some c8dec.dataChunkBegin ∧
    c8dec.dataChunkBegin ≠
      c8dec.dataChunkBegin + ((2 ^ 62 * (c8dec.bitsPerSample / 8) : Nat) : Int) :=
  ⟨rfl, by decide⟩

/-- Claim C10 (counterexample): the `uint32` byte counter wraps.  From
the reachable state `c10dec` — `currentCount = 2 ^ 32 - 1`, far past its
6-byte chunk, so every previous `Read` reported end-of-stream — a `Read`
of one 8-bit sample wraps the counter to 0: the property
`currentCount > chunkSize` is not preserved, and the call consumes a
byte of the source and returns `(1, ok)` instead of `(0, EOS)`. -/
theorem C10_counterexample :
    0 < c10dec.chunkSize ∧ c10dec.chunkSize < c10dec.currentCount ∧
    Read c10dec 1 = .res ⟨1, none, [Sample.u8 9],
      { format := 1, bitsPerSample := 8, chunkSize := 6, currentCount := 0,
        dataChunkBegin := 0, config := none, stream := [] }⟩ :=
  ⟨by decide, by decide, rfl⟩

/-- `readN` on a stream with an explicit prefix of the requested length
returns that prefix and the tail. -/
theorem readN_append (p s : List Nat) (n : Nat) (hp : p.length = n) :
    readN n (p ++ s) = .ok (p, s) := by
  subst hp
  simp [readN]

/-- `consRead` during construction (`chunkSize = 0`) on a stream with an
explicit prefix: the prefix is returned, the data chunk marker advances
by its length. -/
theorem consRead_append (d : DecoderState) (p s : List Nat) (n : Nat)
    (hcs : d.chunkSize = 0) (hp : p.length = n) (hstream : d.stream = p ++ s) :
    consRead d n =
      .ok (p,
        { d with
            dataChunkBegin := int32wrap (d.dataChunkBegin + n)
            stream := s }) := by
  simp [consRead, advance, hcs, hstream, readN_append p s n hp]

/-- `nextChunk` during construction on a stream with an explicit 4-byte
identifier and 4-byte length prefix. -/
theorem nextChunk_append (d : DecoderState) (p q s : List Nat)
    (hcs : d.chunkSize = 0) (hp : p.length = 4) (hq : q.length = 4)
    (hstream : d.stream = p ++ (q ++ s)) :
    nextChunk d =
      .ok (p, le q,
        { d with
            dataChunkBegin := int32wrap (int32wrap (d.dataChunkBegin + 4) + 4)
            stream := s }) := by
  have h1 := consRead_append d p (q ++ s) 4 hcs hp hstream
  have h2 := consRead_append
    { d with dataChunkBegin := int32wrap (d.dataChunkBegin + 4), stream := q ++ s }
    q s 4 hcs hq rfl
  simp [nextChunk, h1, h2]

/-- Every list of length 4 is an explicit 4-element list. -/
theorem exists_four (l : List Nat) (h : l.length = 4) :
    ∃ a b c d, l = [a, b, c, d] := by
  rcases l with _ | ⟨a, _ | ⟨b, _ | ⟨c, _ | ⟨d, _ | ⟨e, t⟩⟩⟩⟩⟩ <;> simp_all

/-- One unfolding step of the fuelled chunk loop. -/
theorem newDecoderLoop_succ (fuel : Nat) (d : DecoderState) :
    newDecoderLoop (fuel + 1) d = loopBody (newDecoderLoop fuel) d := rfl

/-- A `loopBody` step on a `"RIFF"` chunk whose following 4 bytes are
not `"WAVE"` fails with `InvalidData`. -/
theorem loopBody_riff_notwave (rec : DecoderState → Except AudioErr DecoderState)
    (d : DecoderState) (l4 x s : List Nat)
    (hcs : d.chunkSize = 0) (hl : l4.length = 4) (hx : x.length = 4)
    (hne : x ≠ WAVEb) (hstream : d.stream = RIFFb ++ (l4 ++ (x ++ s))) :
    loopBody rec d = .error .invalidData := by
  have hnext := nextChunk_append d RIFFb l4 (x ++ s) hcs rfl hl hstream
  have hcons := consRead_append
    { d with
        dataChunkBegin := int32wrap (int32wrap (d.dataChunkBegin + 4) + 4)
        stream := x ++ s }
    x s 4 hcs hx rfl
  simp [loopBody, hnext, hcons, hne]

/-- Claim C5 (amended part): whenever the 4 bytes following a leading
`"RIFF"` chunk header are not the literal `"WAVE"`, `newDecoder` fails
with `InvalidData`, whatever the rest of the stream contains. -/
theorem C5_not_wave_invalid_data (l4 x rest : List Nat)
    (hl : l4.length = 4) (hx : x.length = 4) (hne : x ≠ WAVEb) :
    newDecoder (RIFFb ++ l4 ++ x ++ rest) = .error .invalidData := by
  obtain ⟨a, b, c, d0, rfl⟩ := exists_four l4 hl
  obtain ⟨x0, x1, x2, x3, rfl⟩ := exists_four x hx
  unfold newDecoder
  rw [newDecoderLoop_succ]
  exact loopBody_riff_notwave _ (initState _) [a, b, c, d0] [x0, x1, x2, x3] rest
    rfl rfl rfl hne (by simp [initState])

/-- Witness for `C5_not_wave_invalid_data` at a concrete stream. -/
theorem C5_not_wave_witness :
    newDecoder (RIFFb ++ [0, 0, 0, 0] ++ [87, 65, 86, 70] ++ [1, 2, 3]) =
      .error .invalidData :=
  C5_not_wave_invalid_data [0, 0, 0, 0] [87, 65, 86, 70] [1, 2, 3]
    rfl rfl (by decide)

/-- A `loopBody` step on a `"RIFF"` chunk followed by `"WAVE"`
continues the loop past the 12 header bytes. -/
theorem loopBody_riff_wave (rec : DecoderState → Except AudioErr DecoderState)
    (d : DecoderState) (l4 s : List Nat)
    (hcs : d.chunkSize = 0) (hl : l4.length = 4)
    (hstream : d.stream = RIFFb ++ (l4 ++ (WAVEb ++ s))) :
    loopBody rec d = rec
      { d with
          dataChunkBegin :=
            int32wrap (int32wrap (int32wrap (d.dataChunkBegin + 4) + 4) + 4)
          stream := s } := by
  have hnext := nextChunk_append d RIFFb l4 (WAVEb ++ s) hcs rfl hl hstream
  have hcons := consRead_append
    { d with
        dataChunkBegin := int32wrap (int32wrap (d.dataChunkBegin + 4) + 4)
        stream := WAVEb ++ s }
    WAVEb s 4 hcs rfl rfl
  simp [loopBody, hnext, hcons]

/-- A `loopBody` step on a `"data"` chunk records the declared length as
the chunk size and ends the loop. -/
theorem loopBody_data (rec : DecoderState → Except AudioErr DecoderState)
    (d : DecoderState) (l4 s : List Nat)
    (hcs : d.chunkSize = 0) (hl : l4.length = 4)
    (hstream : d.stream = DATAb ++ (l4 ++ s)) :
    loopBody rec d = .ok
      { d with
          dataChunkBegin := int32wrap (int32wrap (d.dataChunkBegin + 4) + 4)
          chunkSize := le l4
          stream := s } := by
  have hnext := nextChunk_append d DATAb l4 s hcs rfl hl hstream
  simp [loopBody, hnext, DATAb, RIFFb, FMTb, FACTb]

/-- A `loopBody` step on a 16-byte `fmt ` chunk with explicit payload
bytes: the format tag and bit depth are validated by `checkFmt`; on
success the tag, bit depth and config are recorded and the loop
continues, otherwise construction fails with `Unsupported`. -/
theorem loopBody_fmt16 (rec : DecoderState → Except AudioErr DecoderState)
    (d : DecoderState)
    (c0 c1 c2 c3 c4 c5 c6 c7 c8 c9 c10 c11 c12 c13 c14 c15 : Nat) (s : List Nat)
    (hcs : d.chunkSize = 0)
    (hstream : d.stream = FMTb ++ ([16, 0, 0, 0] ++
      ([c0, c1, c2, c3, c4, c5, c6, c7, c8, c9, c10, c11, c12, c13, c14, c15] ++ s))) :
    loopBody rec d =
      if checkFmt (c0 + 256 * c1) (c14 + 256 * c15) then
        rec { d with
                format := c0 + 256 * c1
                bitsPerSample := c14 + 256 * c15
                config := some (c2 + 256 * c3,
                  c4 + 256 * (c5 + 256 * (c6 + 256 * c7)))
                dataChunkBegin :=
                  int32wrap (int32wrap (int32wrap (d.dataChunkBegin + 4) + 4) + 16)
                stream := s }
      else .error .unsupported := by
  have hnext := nextChunk_append d FMTb [16, 0, 0, 0]
    ([c0, c1, c2, c3, c4, c5, c6, c7, c8, c9, c10, c11, c12, c13, c14, c15] ++ s)
    hcs rfl rfl hstream
  have hcons := consRead_append
    { d with
        dataChunkBegin := int32wrap (int32wrap (d.dataChunkBegin + 4) + 4)
        stream := [c0, c1, c2, c3, c4, c5, c6, c7, c8, c9, c10, c11, c12, c13, c14, c15] ++ s }
    [c0, c1, c2, c3, c4, c5, c6, c7, c8, c9, c10, c11, c12, c13, c14, c15] s 16 hcs rfl rfl
  simp only [List.cons_append, List.nil_append] at hcons
  simp [loopBody, hnext, hcons, le, FMTb, RIFFb]

/-- The supported-combination switch agrees with the spec's table. -/
theorem checkFmt_iff (ft bps : Nat) :
    checkFmt ft bps = true ↔
      ((ft = 1 ∧ (bps = 8 ∨ bps = 16 ∨ bps = 24 ∨ bps = 32)) ∨
       (ft = 3 ∧ (bps = 32 ∨ bps = 64)) ∨
       (ft = 6 ∧ bps = 8) ∨ (ft = 7 ∧ bps = 8)) := by
  simp [checkFmt]
  tauto

/-- Claim C2: for a container whose `fmt ` chunk declares format tag
`ft` and bit depth `bps`, `newDecoder` accepts exactly the combinations
PCM (1) with 8/16/24/32 bits, IEEE float (3) with 32/64 bits, A-law (6)
with 8 bits and mu-law (7) with 8 bits; every other combination —
including EXTENSIBLE (`0xFFFE`) with any bit depth — fails with the
`Unsupported` error (in particular never with `InvalidData`). -/
theorem C2_format_acceptance (ft bps : Nat) (hft : ft < 65536) (hbps : bps < 65536) :
    newDecoder (mkFmtStream ft bps) =
      if ((ft = 1 ∧ (bps = 8 ∨ bps = 16 ∨ bps = 24 ∨ bps = 32)) ∨
          (ft = 3 ∧ (bps = 32 ∨ bps = 64)) ∨
          (ft = 6 ∧ bps = 8) ∨ (ft = 7 ∧ bps = 8))
      then .ok (mkFmtDecoder ft bps) else .error .unsupported := by
  have hlen : (mkFmtStream ft bps).length = 44 := by
    simp [mkFmtStream, RIFFb, WAVEb, FMTb, DATAb]
  unfold newDecoder
  rw [hlen, newDecoderLoop_succ]
  rw [loopBody_riff_wave _ _ [0, 0, 0, 0]
    (FMTb ++ ([16, 0, 0, 0] ++
      ([ft % 256, ft / 256, 2, 0, 68, 172, 0, 0, 0, 0, 0, 0, 0, 0, bps % 256, bps / 256] ++
       (DATAb ++ ([4, 0, 0, 0] ++ [])))))
    rfl rfl (by simp [initState, mkFmtStream])]
  have step44 : ∀ d, newDecoderLoop 44 d = loopBody (newDecoderLoop 43) d :=
    fun _ => rfl
  rw [step44]
  rw [loopBody_fmt16 _ _ (ft % 256) (ft / 256) 2 0 68 172 0 0 0 0 0 0 0 0
    (bps % 256) (bps / 256) (DATAb ++ ([4, 0, 0, 0] ++ [])) rfl rfl]
  rw [Nat.mod_add_div ft 256, Nat.mod_add_div bps 256]
  by_cases h : checkFmt ft bps = true
  · rw [if_pos h, if_pos ((checkFmt_iff ft bps).mp h)]
    have step43 : ∀ d, newDecoderLoop 43 d = loopBody (newDecoderLoop 42) d :=
      fun _ => rfl
    rw [step43]
    rw [loopBody_data _ _ [4, 0, 0, 0] [] rfl rfl (by simp)]
    simp [mkFmtDecoder, initState, le, int32wrap]
  · rw [if_neg h, if_neg (fun hc => h ((checkFmt_iff ft bps).mpr hc))]

/-- Witness for `C2_format_acceptance`: the EXTENSIBLE tag `0xFFFE` with
16 bits is rejected with `Unsupported`. -/
theorem C2_format_witness :
    newDecoder (mkFmtStream 65534 16) = .error .unsupported := by
  have h := C2_format_acceptance 65534 16 (by decide) (by decide)
  rw [if_neg (by decide)] at h
  exact h

/-- `readSamples` when every requested sample fits inside the known
chunk: all `n` samples are decoded, no error, the byte counter advances
by `n * w` and `n * w` bytes of the source are consumed. -/
theorem readSamples_ok (w : Nat) (dec : List Nat → Sample) :
    ∀ (n : Nat) (d : DecoderState),
      0 < d.chunkSize → d.chunkSize < 2 ^ 32 →
      d.currentCount + n * w ≤ d.chunkSize → n * w ≤ d.stream.length →
      readSamples w dec n d =
        ⟨n, none, decodeSeg w dec n d.stream,
         { d with currentCount := d.currentCount + n * w,
                  stream := d.stream.drop (n * w) }⟩ := by
  intro n
  induction n with
  | zero => intro d h1 h2 h3 h4; simp [readSamples, decodeSeg]
  | succ n ih =>
    intro d h1 h2 h3 h4
    rw [Nat.succ_mul] at h3 h4
    have hww : w ≤ n * w + w := by omega
    have hcc : (d.currentCount + w) % 2 ^ 32 = d.currentCount + w :=
      Nat.mod_eq_of_lt (by omega)
    have hih := ih { d with currentCount := d.currentCount + w,
                            stream := d.stream.drop w }
      h1 h2 (by simpa using by omega) (by simp [List.length_drop]; omega)
    simp only [readSamples, advance, if_pos h1, hcc]
    rw [if_neg (by omega)]
    simp only [readN, List.length_drop]
    rw [if_pos (by omega : w ≤ d.stream.length)]
    simp only [hih]
    simp [decodeSeg, List.drop_drop, Nat.succ_mul]
    constructor
    · omega
    · congr 1
      omega

/-- `readSamples` when the request crosses the chunk boundary: with `r`
samples left in the chunk and more than `r` requested, exactly `r`
samples are decoded and the call aborts with `audio.EOS`, the byte
counter having overshot to `chunkSize + w`; only `r * w` bytes of the
source are consumed. -/
theorem readSamples_eos (w : Nat) (dec : List Nat → Sample) :
    ∀ (r n : Nat) (d : DecoderState),
      0 < w → 0 < d.chunkSize → d.chunkSize + w < 2 ^ 32 →
      d.currentCount + r * w = d.chunkSize → r < n → r * w ≤ d.stream.length →
      readSamples w dec n d =
        ⟨r, some .eos, decodeSeg w dec r d.stream,
         { d with currentCount := d.chunkSize + w,
                  stream := d.stream.drop (r * w) }⟩ := by
  intro r
  induction r with
  | zero =>
    intro n d hw h1 h2 h3 h4 h5
    obtain ⟨m, rfl⟩ : ∃ m, n = m + 1 := ⟨n - 1, by omega⟩
    have hcc : (d.currentCount + w) % 2 ^ 32 = d.currentCount + w :=
      Nat.mod_eq_of_lt (by omega)
    simp only [readSamples, advance, if_pos h1, hcc]
    rw [if_pos (by omega)]
    simp [decodeSeg]
    omega
  | succ r ih =>
    intro n d hw h1 h2 h3 h4 h5
    obtain ⟨m, rfl⟩ : ∃ m, n = m + 1 := ⟨n - 1, by omega⟩
    rw [Nat.succ_mul] at h3 h5
    have hcc : (d.currentCount + w) % 2 ^ 32 = d.currentCount + w :=
      Nat.mod_eq_of_lt (by omega)
    have hih := ih m { d with currentCount := d.currentCount + w,
                              stream := d.stream.drop w }
      hw h1 h2 (by simp; omega) (by omega) (by simp [List.length_drop]; omega)
    simp only [readSamples, advance, if_pos h1, hcc]
    rw [if_neg (by omega)]
    simp only [readN, List.length_drop]
    rw [if_pos (by omega : w ≤ d.stream.length)]
    simp only [hih]
    simp [decodeSeg, List.drop_drop, Nat.succ_mul]
    congr 1
    omega

/-- Every per-format sample width is positive. -/
theorem sampleWidth_pos (d : DecoderState) (w : Nat)
    (hw : sampleWidth d = some w) : 0 < w := by
  unfold sampleWidth at hw
  split at hw <;> simp_all <;> omega

/-- Whenever `sampleWidth` is defined, `Read` with a non-empty buffer
dispatches to `readSamples` at that width with the matching per-format
decode function. -/
theorem Read_dispatch (d : DecoderState) (w : Nat)
    (hw : sampleWidth d = some w) (n : Nat) (hn : n ≠ 0) :
    ∃ dec, Read d n = .res (readSamples w dec n d) := by
  unfold sampleWidth at hw
  unfold Read
  rw [if_neg hn]
  split at hw
  case _ => exact ⟨decU8, by simp_all⟩
  case _ => exact ⟨decI16, by simp_all⟩
  case _ => exact ⟨decI24, by simp_all⟩
  case _ => exact ⟨decI32, by simp_all⟩
  case _ => exact absurd hw (by simp)
  case _ => exact ⟨decF32, by simp_all⟩
  case _ => exact ⟨decF64, by simp_all⟩
  case _ => exact absurd hw (by simp)
  case _ => exact ⟨decMu, by simp_all⟩
  case _ => exact ⟨decA, by simp_all⟩
  case _ => exact absurd hw (by simp)

/-- Sequential `Read` calls on a decoder whose chunk holds exactly `r`
more samples (`currentCount = (k - r) * w`, `chunkSize = k * w`) return
`r` samples in total and stop with `audio.EOS`, provided the buffers are
non-empty and request more than `r` samples in total. -/
theorem runStop_eos :
    ∀ (sizes : List Nat) (d : DecoderState) (w k r : Nat),
      sampleWidth d = some w →
      d.chunkSize = k * w →
      d.currentCount = (k - r) * w →
      r ≤ k → 0 < k →
      (k + 1) * w < 2 ^ 32 →
      r * w ≤ d.stream.length →
      (∀ n ∈ sizes, 0 < n) →
      r < sizes.sum →
      runUntilStop d sizes = (r, some .eos) := by
  intro sizes
  induction sizes with
  | nil => intro d w k r _ _ _ _ _ _ _ _ hsum; simp at hsum
  | cons n rest ih =>
    intro d w k r hsw hcs hcc hrk hk hov hstr hpos hsum
    have hw : 0 < w := sampleWidth_pos d w hsw
    have hn : 0 < n := hpos n (by simp)
    have hsm : (k + 1) * w = k * w + w := Nat.succ_mul k w
    have hkw : (k - r) * w + r * w = k * w := by
      rw [← Nat.add_mul, Nat.sub_add_cancel hrk]
    obtain ⟨dec, hread⟩ := Read_dispatch d w hsw n (by omega)
    by_cases hcase : r < n
    · have heos := readSamples_eos w dec r n d hw
        (by rw [hcs]; exact Nat.mul_pos hk hw) (by rw [hcs]; omega)
        (by rw [hcs, hcc]; exact hkw) hcase hstr
      simp [runUntilStop, hread, heos]
    · push_neg at hcase
      have hnr : n * w ≤ r * w := Nat.mul_le_mul_right w hcase
      have hok := readSamples_ok w dec n d
        (by rw [hcs]; exact Nat.mul_pos hk hw) (by rw [hcs]; omega)
        (by rw [hcs, hcc, ← Nat.add_mul]
            exact Nat.mul_le_mul_right w (by omega))
        (by omega)
      have hsub : (r - n) * w = r * w - n * w := Nat.sub_mul r n w
      have hihres := ih
        { d with currentCount := d.currentCount + n * w,
                 stream := d.stream.drop (n * w) }
        w k (r - n) hsw hcs
        (by show d.currentCount + n * w = (k - (r - n)) * w
            rw [hcc, ← Nat.add_mul]
            congr 1
            omega)
        (by omega) hk hov
        (by simp [List.length_drop]; omega)
        (fun m hm => hpos m (by simp [hm]))
        (by simp at hsum ⊢; omega)
      simp [runUntilStop, hread, hok, hihres]
      omega

/-- Claim C1 (amended): a decoder with a known chunk size holding
exactly `k` samples of width `w` returns exactly `k` samples in total
over any sequence of `Read` calls with non-empty buffers requesting
more than `k` samples, the stopping call reporting `audio.EOS` together
with its partial count (included in the total) — provided the `uint32`
byte counter cannot wrap, i.e. `(k + 1) * w < 2 ^ 32`.  At the excluded
boundary the counter wraps and an extra sample is returned with no
end-of-stream status. -/
theorem C1_data_chunk_sample_count (d : DecoderState) (w k : Nat)
    (sizes : List Nat)
    (hsw : sampleWidth d = some w) (hcs : d.chunkSize = k * w) (hk : 0 < k)
    (hcc : d.currentCount = 0) (hstr : k * w ≤ d.stream.length)
    (hov : (k + 1) * w < 2 ^ 32) (hpos : ∀ n ∈ sizes, 0 < n)
    (hsum : k < sizes.sum) :
    runUntilStop d sizes = (k, some .eos) :=
  runStop_eos sizes d w k k hsw hcs (by rw [hcc, Nat.sub_self, Nat.zero_mul])
    le_rfl hk hov hstr hpos hsum

/-- Witness for `C1_data_chunk_sample_count`: a 16-bit PCM decoder with
a 6-byte chunk (3 samples) read with buffers of 2 and 2 samples returns
2 then 1 sample, 3 in total, ending with `audio.EOS`. -/
theorem C1_witness :
    runUntilStop
      { format := 1, bitsPerSample := 16, chunkSize := 6, currentCount := 0,
        dataChunkBegin := 0, config := none, stream := [1, 0, 2, 0, 3, 0] }
      [2, 2] = (3, some .eos) :=
  C1_data_chunk_sample_count _ 2 3 [2, 2] rfl rfl (by decide) rfl (by decide)
    (by decide) (by decide) (by decide)

/-- The source length of `c1BoundaryDec`: the declared payload plus 8
trailing bytes. -/
theorem c1BoundaryDec_stream_length :
    c1BoundaryDec.stream.length = 536870911 * 8 + 8 := by
  show (List.replicate (536870911 * 8) (0 : Nat) ++
    List.replicate 8 0).length = 536870911 * 8 + 8
  rw [List.length_append, List.length_replicate, List.length_replicate]

/-- Reading the declared `536870911` samples of `c1BoundaryDec`
succeeds with no error. -/
theorem c1BoundaryDec_readK (dec : List Nat → Sample) :
    readSamples 8 dec 536870911 c1BoundaryDec =
      ⟨536870911, none, decodeSeg 8 dec 536870911 c1BoundaryDec.stream,
       { c1BoundaryDec with
           currentCount := c1BoundaryDec.currentCount + 536870911 * 8
           stream := c1BoundaryDec.stream.drop (536870911 * 8) }⟩ :=
  readSamples_ok 8 dec 536870911 c1BoundaryDec
    (show 0 < 536870911 * 8 by norm_num)
    (show 536870911 * 8 < 2 ^ 32 by norm_num)
    (show 0 + 536870911 * 8 ≤ 536870911 * 8 by omega)
    (by rw [c1BoundaryDec_stream_length]; omega)

/-- Dropping the declared payload of `c1BoundaryDec` leaves the 8
trailing bytes. -/
theorem c1BoundaryDec_drop :
    c1BoundaryDec.stream.drop (536870911 * 8) = List.replicate 8 0 :=
  List.drop_left' (List.length_replicate (536870911 * 8) 0)

/-- The state after the declared samples of `c1BoundaryDec` is
`c1AfterK`. -/
theorem c1BoundaryDec_afterK : ({ c1BoundaryDec with
      currentCount := c1BoundaryDec.currentCount + 536870911 * 8
      stream := c1BoundaryDec.stream.drop (536870911 * 8) } : DecoderState) =
    c1AfterK := by
  rw [c1BoundaryDec_drop]
  decide

/-- At `c1AfterK` — byte counter exactly at the chunk size — the next
sample read wraps the `uint32` counter to 0, detects no end-of-stream,
and decodes one extra sample from the trailing bytes. -/
theorem c1AfterK_read_one (dec2 : List Nat → Sample) :
    readSamples 8 dec2 1 c1AfterK =
      ⟨1, none, [dec2 (c1AfterK.stream.take 8)],
       { c1AfterK with currentCount := 0, stream := c1AfterK.stream.drop 8 }⟩ := by
  have h0a : 0 < c1AfterK.chunkSize := show 0 < 536870911 * 8 by norm_num
  have hcc : (c1AfterK.currentCount + 8) % 2 ^ 32 = 0 := by
    show (536870911 * 8 + 8) % 2 ^ 32 = 0
    norm_num
  simp only [readSamples, advance, if_pos h0a, hcc]
  rw [if_neg (show ¬ c1AfterK.chunkSize < 0 from by omega)]
  simp only [readN]
  rw [if_pos (show (8 : Nat) ≤ c1AfterK.stream.length from le_of_eq
    (List.length_replicate 8 0).symm)]

/-- Two consecutive `Read` calls that both succeed without error
accumulate their sample counts and stop with no error. -/
theorem runUntilStop_two (d d1 d2 : DecoderState) (n1 n2 r1 r2 : Nat)
    (s1 s2 : List Sample)
    (h1 : Read d n1 = .res ⟨r1, none, s1, d1⟩)
    (h2 : Read d1 n2 = .res ⟨r2, none, s2, d2⟩) :
    runUntilStop d [n1, n2] = (r1 + r2, none) := by
  simp [runUntilStop, h1, h2]

/-- Claim C1 (counterexample): the original claim fails at a chunk size
within one sample width of the `uint32` maximum.  `c1BoundaryDec`
declares exactly `k = 536870911` 8-byte samples
(`chunkSize = k * 8 = 2 ^ 32 - 8`); `Read` calls with non-empty buffers
requesting `k` and then 1 samples return `k + 1` samples in total and
never report end-of-stream: on the boundary call the `uint32` byte
counter wraps to 0 instead of exceeding `chunkSize`, and an extra
sample is decoded from the bytes following the declared payload. -/
theorem C1_counterexample :
    runUntilStop c1BoundaryDec [536870911, 1] = (536870911 + 1, none) := by
  obtain ⟨dec, hread⟩ :=
    Read_dispatch c1BoundaryDec 8 rfl 536870911 (by norm_num)
  have hok := c1BoundaryDec_readK dec
  rw [c1BoundaryDec_afterK] at hok
  obtain ⟨dec2, hread2⟩ := Read_dispatch c1AfterK 8 rfl 1 one_ne_zero
  exact runUntilStop_two c1BoundaryDec c1AfterK _ 536870911 1 536870911 1 _ _
    (hread.trans (congrArg ReadOutcome.res hok))
    (hread2.trans (congrArg ReadOutcome.res (c1AfterK_read_one dec2)))

/-- Claim C10 (amended): once `currentCount` exceeds a known
`chunkSize`, as long as the 32-bit counter does not wrap
(`currentCount + w < 2 ^ 32`), every `Read` with a non-empty buffer
returns `(0, EOS)` without consuming any bytes of the source, and the
property `currentCount > chunkSize` is preserved. -/
theorem C10_post_eos_reads (d : DecoderState) (w n : Nat)
    (hsw : sampleWidth d = some w) (h0 : 0 < d.chunkSize)
    (hgt : d.chunkSize < d.currentCount) (hov : d.currentCount + w < 2 ^ 32)
    (hn : 0 < n) :
    Read d n = .res ⟨0, some .eos, [],
      { d with currentCount := d.currentCount + w }⟩ ∧
    d.chunkSize < d.currentCount + w := by
  obtain ⟨dec, hread⟩ := Read_dispatch d w hsw n (by omega)
  obtain ⟨m, rfl⟩ : ∃ m, n = m + 1 := ⟨n - 1, by omega⟩
  refine ⟨?_, by omega⟩
  rw [hread]
  have hcc : (d.currentCount + w) % 2 ^ 32 = d.currentCount + w :=
    Nat.mod_eq_of_lt hov
  simp only [readSamples, advance, if_pos h0, hcc]
  rw [if_pos (by omega)]

/-- Witness for `C10_post_eos_reads` on an 8-bit decoder past its
2-byte chunk. -/
theorem C10_post_eos_witness :
    Read { format := 1, bitsPerSample := 8, chunkSize := 2, currentCount := 5,
           dataChunkBegin := 0, config := none, stream := [1, 2, 3] } 2 =
      .res ⟨0, some .eos, [],
        { format := 1, bitsPerSample := 8, chunkSize := 2, currentCount := 6,
          dataChunkBegin := 0, config := none, stream := [1, 2, 3] }⟩ ∧
    (2 : Nat) < 6 := by
  have h := C10_post_eos_reads
    { format := 1, bitsPerSample := 8, chunkSize := 2, currentCount := 5,
      dataChunkBegin := 0, config := none, stream := [1, 2, 3] }
    1 2 rfl (by decide) (by decide) (by decide) (by decide)
  exact ⟨h.1, by decide⟩

/-- Bitwise-or of a value below `2 ^ n` with a value shifted left by `n`
is their sum (the bit ranges are disjoint). -/
theorem lor_shiftLeft_eq (a b n : Nat) (ha : a < 2 ^ n) :
    a ||| (b <<< n) = 2 ^ n * b + a := by
  apply Nat.eq_of_testBit_eq
  intro i
  rw [Nat.testBit_or, Nat.testBit_shiftLeft, Nat.testBit_mul_pow_two_add b ha i]
  by_cases h : i < n
  · simp [Nat.not_le.mpr h, h]
  · push_neg at h
    rw [Nat.testBit_lt_two_pow
      (lt_of_lt_of_le ha (Nat.pow_le_pow_right (by norm_num) h))]
    simp [h, Nat.not_lt.mpr h]

/-- `readSamples` while the chunk size is unknown (`chunkSize = 0`)
never reports end-of-stream: all `n` samples are decoded from
consecutive `w`-byte groups of the source. -/
theorem readSamples_noChunk (w : Nat) (dec : List Nat → Sample) :
    ∀ (n : Nat) (d : DecoderState), d.chunkSize = 0 → n * w ≤ d.stream.length →
      ∃ dcb, readSamples w dec n d =
        ⟨n, none, decodeSeg w dec n d.stream,
         { d with dataChunkBegin := dcb, stream := d.stream.drop (n * w) }⟩ := by
  intro n
  induction n with
  | zero =>
    intro d h0 hl
    exact ⟨d.dataChunkBegin, by simp [readSamples, decodeSeg]⟩
  | succ n ih =>
    intro d h0 hl
    rw [Nat.succ_mul] at hl
    obtain ⟨dcb, hrec⟩ := ih
      { d with dataChunkBegin := int32wrap (d.dataChunkBegin + w),
               stream := d.stream.drop w }
      h0 (by simp [List.length_drop]; omega)
    refine ⟨dcb, ?_⟩
    simp only [readSamples, advance]
    rw [if_neg (by omega : ¬ 0 < d.chunkSize)]
    simp only [readN, List.length_drop]
    rw [if_pos (by omega : w ≤ d.stream.length)]
    simp only [hrec]
    simp [decodeSeg, List.drop_drop, Nat.succ_mul]
    congr 1
    omega

/-- Claim C6: the 24-bit PCM decode sign-extends each 3-byte
little-endian two's-complement group to a signed 32-bit integer — in
particular `[0x00, 0x00, 0x80]` decodes to `-8388608` and
`[0xFF, 0xFF, 0x7F]` to `8388607` — and (last conjunct) `readInt24`
applies this decode at every 3-byte position of the stream. -/
theorem C6_int24_sign_extension :
    (∀ b0 b1 b2 : Nat, b0 < 256 → b1 < 256 → b2 < 256 →
      int24of [b0, b1, b2] =
        if b2 < 128 then ((b0 + 256 * b1 + 65536 * b2 : Nat) : Int)
        else ((b0 + 256 * b1 + 65536 * b2 : Nat) : Int) - 16777216) ∧
    int24of [0, 0, 128] = -8388608 ∧
    int24of [255, 255, 127] = 8388607 ∧
    (∀ (n : Nat) (d : DecoderState), d.chunkSize = 0 →
      n * 3 ≤ d.stream.length →
      ∃ dcb, readSamples 3 decI24 n d =
        ⟨n, none, decodeSeg 3 decI24 n d.stream,
         { d with dataChunkBegin := dcb, stream := d.stream.drop (n * 3) }⟩) := by
  refine ⟨?_, by decide, by decide, readSamples_noChunk 3 decI24⟩
  intro b0 b1 b2 h0 h1 h2
  have e1 : b0 ||| (b1 <<< 8) = 2 ^ 8 * b1 + b0 := lor_shiftLeft_eq b0 b1 8 h0
  have hlt : 2 ^ 8 * b1 + b0 < 2 ^ 16 := by omega
  have e2 : (2 ^ 8 * b1 + b0) ||| (b2 <<< 16) = 2 ^ 16 * b2 + (2 ^ 8 * b1 + b0) :=
    lor_shiftLeft_eq _ b2 16 hlt
  unfold int24of
  simp only [List.getD_cons_zero, List.getD_cons_succ]
  rw [e1, e2]
  have hbit : (2 ^ 16 * b2 + (2 ^ 8 * b1 + b0)).testBit 23 = decide (128 ≤ b2) := by
    rw [Nat.testBit_mul_pow_two_add b2 hlt 23]
    norm_num
    rw [Nat.testBit_to_div_mod, decide_eq_decide]
    omega
  have hand := Nat.and_two_pow (2 ^ 16 * b2 + (2 ^ 8 * b1 + b0)) 23
  rw [show (8388608 : Nat) = 2 ^ 23 from by norm_num, hand, hbit]
  by_cases hb : b2 < 128
  · rw [if_pos hb]
    rw [show decide (128 ≤ b2) = false from by simp; omega]
    simp only [Bool.toNat_false, Nat.zero_mul, Nat.lt_irrefl, if_false]
    unfold toSigned
    rw [if_pos (by norm_num; omega)]
    have : 2 ^ 16 * b2 + (2 ^ 8 * b1 + b0) = b0 + 256 * b1 + 65536 * b2 := by omega
    rw [this]
  · rw [if_neg hb]
    rw [show decide (128 ≤ b2) = true from by simp; omega]
    have e3 : (2 ^ 16 * b2 + (2 ^ 8 * b1 + b0)) ||| 4278190080 =
        2 ^ 24 * 255 + (2 ^ 16 * b2 + (2 ^ 8 * b1 + b0)) := by
      rw [show (4278190080 : Nat) = 255 <<< 24 from by decide]
      exact lor_shiftLeft_eq _ 255 24 (by omega)
    rw [if_pos (by simp), e3]
    unfold toSigned
    rw [if_neg (by norm_num; omega)]
    push_cast
    omega

/-- Witness for `C6_int24_sign_extension` at the byte group
`[0x01, 0x00, 0xC8]` (a negative sample). -/
theorem C6_witness :
    int24of [1, 0, 200] = ((1 + 256 * 0 + 65536 * 200 : Nat) : Int) - 16777216 := by
  have h := C6_int24_sign_extension.1 1 0 200 (by decide) (by decide) (by decide)
  rw [if_neg (by decide)] at h
  exact h

/-- Claim C8 (amended): `Seek` on a seekable source repositions it to
`dataChunkBegin + sampleIndex * (bitsPerSample / 8)` whenever that
target offset is within the non-negative `int64` range (no 64-bit
wraparound); on a non-seekable source `Seek` is a no-op that succeeds. -/
theorem C8_seek_target (d : DecoderState) (i : Nat)
    (h0 : 0 ≤ d.dataChunkBegin)
    (hov : d.dataChunkBegin + ((i * (d.bitsPerSample / 8) : Nat) : Int) < 2 ^ 63) :
    Seek d i true = some (d.dataChunkBegin + ((i * (d.bitsPerSample / 8) : Nat) : Int)) ∧
    Seek d i false = none := by
  have hoff : i * (d.bitsPerSample / 8) < 2 ^ 63 := by
    have h1 : ((i * (d.bitsPerSample / 8) : Nat) : Int) < 2 ^ 63 := by omega
    exact_mod_cast lt_of_le_of_lt (le_of_eq rfl) h1
  refine ⟨?_, rfl⟩
  unfold Seek toInt64
  rw [Nat.mod_eq_of_lt (lt_trans hoff (by norm_num)), if_pos hoff]
  have hc : (0 : Int) ≤ ((i * (d.bitsPerSample / 8) : Nat) : Int) := Int.ofNat_nonneg _
  rw [Int.emod_eq_of_lt (by omega) (by omega)]
  simp

/-- Witness for `C8_seek_target`: seeking to sample 10 of a 32-bit
decoder whose data chunk starts at byte 44 targets byte 84. -/
theorem C8_seek_witness :
    Seek c8dec 10 true = some 84 ∧ Seek c8dec 10 false = none := by
  have h := C8_seek_target c8dec 10 (by decide) (by decide)
  exact ⟨by rw [h.1]; decide, h.2⟩
